import Mathlib

/-!
Shallow embedding of the boundary-inference core of `vclust`
(`src/profile.rs` and `src/extend.rs`), together with theorems settling
the specification claims about it.

Modelling conventions:
* Rust `i64` positions and lengths become `ℤ`; `usize`/`u32` counters become `ℕ`;
  `f64` signal values become `ℚ` (the decimal literals of the source denote the
  corresponding rationals, and only order comparisons and exact ratios of small
  decimals are relevant to the claims).
* BAM I/O is external: `get_profile` receives the list of fetched records, and
  `get_extension_offsets` receives the per-sample profile results.
* Rust panics (failed `assert_eq!`, out-of-bounds slice indexing — including a
  negative `i64` cast to `usize`, which wraps far past any vector length — and
  the explicit `panic!` on unexpected CIGAR operations) are modelled as
  `Except.error` with a `Fault` describing the panic kind.
* The statistical tables `MODEL_REF`/`MODEL_VC` and the priors live in
  `models.rs`, which is not part of the provided sources; `assess_window` is a
  pure function of the window contents, so the boundary extender is
  parameterised by an arbitrary `assess : List ℕ → ℚ` in its place.
-/

deriving instance DecidableEq for Except

namespace VClust

/-- CIGAR operation kinds of `rust_htslib::bam::record::Cigar`. -/
inductive CigarOp where
  | Match (len : ℕ)
  | Ins (len : ℕ)
  | Del (len : ℕ)
  | RefSkip (len : ℕ)
  | SoftClip (len : ℕ)
  | HardClip (len : ℕ)
  | Pad (len : ℕ)
  | Equal (len : ℕ)
  | Diff (len : ℕ)
deriving DecidableEq

/-- `get_ref_len` from `src/profile.rs`: reference length consumed by an operation. -/
def get_ref_len : CigarOp → ℤ
  | .Match len | .RefSkip len | .Del len | .Equal len | .Diff len => (len : ℤ)
  | .Ins _ | .SoftClip _ | .HardClip _ | .Pad _ => 0

/-- The `Region` tuple `(&str, i64, i64)` of `src/profile.rs`. -/
structure Region where
  chrom : String
  rStart : ℤ
  rEnd : ℤ
deriving DecidableEq

/-- The fields of a `rust_htslib` alignment record that `profile.rs` reads. -/
structure Record where
  pos : ℤ
  mapq : ℕ
  is_secondary : Bool
  is_supplementary : Bool
  cigar : List CigarOp
deriving DecidableEq

/-- `Prof` from `src/profile.rs`. -/
structure Prof where
  alts : List ℚ
  depth : ℚ
deriving DecidableEq

/-- Panic kinds of `update_profs`: out-of-bounds slice access, the explicit
`panic!("Unexpected operation ...")`, and a failed entry `assert_eq!`. -/
inductive Fault where
  | oob
  | badOp
  | assertViol
deriving DecidableEq

/-- Outcomes by which `get_profile` fails: a panic inside `update_profs`, or the
`Err("High depth".to_string())` record-count ceiling. -/
inductive ProfErr where
  | fault (f : Fault)
  | highDepth
deriving DecidableEq

/-- `for cov in slice.iter_mut() { *cov += 1 }` over the slice `[i..i+n]`. -/
def incrSlice (l : List ℕ) (i n : ℕ) : List ℕ :=
  l.mapIdx fun j v => if i ≤ j ∧ j < i + n then v + 1 else v

/-- `l[i] += k` on a vector of counters. -/
def addAt (l : List ℕ) (i : ℕ) (k : ℕ) : List ℕ :=
  l.mapIdx fun j v => if j = i then v + k else v

/-- The mutable state threaded through the CIGAR walk of `update_profs`. -/
structure ProfState where
  refPos : ℤ
  covs : List ℕ
  alts : List ℕ
  anyAlt : Bool
deriving DecidableEq

/-- The `for op in rec.cigar().iter()` loop body of `update_profs`
(`src/profile.rs` lines 58-119), one constructor case per CIGAR arm.  The
bounds tests guarding each vector access model Rust's implicit slice-bounds
panics (a negative value cast to `usize` wraps far beyond any vector length,
so it is the same out-of-bounds panic). -/
def processOps (rS rE : ℤ) : List CigarOp → ProfState → Except Fault ProfState
  | [], st => .ok st
  | op :: rest, st =>
    -- Skip operations entirely before the region
    if st.refPos + get_ref_len op ≤ rS then
      processOps rS rE rest { st with refPos := st.refPos + get_ref_len op }
    -- Stop if we're entirely past the region
    else if rE ≤ st.refPos then
      .ok st
    else
      match op with
      | .Match _ | .Equal _ =>
        if 0 ≤ max st.refPos rS - rS ∧
           0 ≤ min (st.refPos + get_ref_len op) rE - max st.refPos rS ∧
           (max st.refPos rS - rS) + (min (st.refPos + get_ref_len op) rE - max st.refPos rS)
             ≤ (st.covs.length : ℤ) then
          processOps rS rE rest
            { st with
              covs := incrSlice st.covs (max st.refPos rS - rS).toNat
                        (min (st.refPos + get_ref_len op) rE - max st.refPos rS).toNat,
              refPos := st.refPos + get_ref_len op }
        else .error .oob
      | .Diff _ | .Del _ =>
        if 0 ≤ max st.refPos rS - rS ∧
           0 ≤ min (st.refPos + get_ref_len op) rE - max st.refPos rS ∧
           (max st.refPos rS - rS) + (min (st.refPos + get_ref_len op) rE - max st.refPos rS)
             ≤ (st.covs.length : ℤ) ∧
           (max st.refPos rS - rS) + (min (st.refPos + get_ref_len op) rE - max st.refPos rS)
             ≤ (st.alts.length : ℤ) then
          processOps rS rE rest
            { st with
              covs := incrSlice st.covs (max st.refPos rS - rS).toNat
                        (min (st.refPos + get_ref_len op) rE - max st.refPos rS).toNat,
              alts := incrSlice st.alts (max st.refPos rS - rS).toNat
                        (min (st.refPos + get_ref_len op) rE - max st.refPos rS).toNat,
              anyAlt := st.anyAlt
                || decide (5 ≤ min (st.refPos + get_ref_len op) rE - max st.refPos rS),
              refPos := st.refPos + get_ref_len op }
        else .error .oob
      | .Ins len =>
        if rS ≤ st.refPos ∧ st.refPos < rE then
          if (st.refPos - rS).toNat < st.alts.length then
            processOps rS rE rest
              { st with
                alts := addAt st.alts (st.refPos - rS).toNat len,
                anyAlt := st.anyAlt
                  || decide (5 ≤ min (st.refPos + get_ref_len op) rE - max st.refPos rS) }
          else .error .oob
        else
          processOps rS rE rest
            { st with
              anyAlt := st.anyAlt
                || decide (5 ≤ min (st.refPos + get_ref_len op) rE - max st.refPos rS) }
      | .SoftClip _ =>
        if rS ≤ st.refPos ∧ st.refPos < rE then
          if (st.refPos - rS).toNat < st.alts.length then
            processOps rS rE rest
              { st with alts := addAt st.alts (st.refPos - rS).toNat 1 }
          else .error .oob
        else
          processOps rS rE rest st
      | .HardClip _ | .Pad _ | .RefSkip _ => .error .badOp

/-- `update_profs` from `src/profile.rs`: the two entry `assert_eq!`s followed
by the CIGAR walk; returns the updated coverage and alteration vectors and the
per-record strong-evidence flag. -/
def update_profs (rec : Record) (covs alts : List ℕ) (region : Region) :
    Except Fault (List ℕ × List ℕ × Bool) :=
  if (covs.length : ℤ) = region.rEnd - region.rStart ∧ covs.length = alts.length then
    match processOps region.rStart region.rEnd rec.cigar
        { refPos := rec.pos, covs := covs, alts := alts, anyAlt := false } with
    | .ok st => .ok (st.covs, st.alts, st.anyAlt)
    | .error f => .error f
  else .error .assertViol

/-- `get_mean` from `src/profile.rs`. -/
def get_mean (vals : List ℕ) : ℚ :=
  (vals.sum : ℚ) / (vals.length : ℚ)

/-- The record loop of `get_profile` (`src/profile.rs` lines 26-38), over the
enumerated fetched records: the secondary/supplementary/mapq filter, the
`update_profs` call, and the `index >= 200` "High depth" ceiling. -/
def profLoop (region : Region) :
    List (ℕ × Record) → List ℕ → List ℕ → ℕ → Except ProfErr (List ℕ × List ℕ × ℕ)
  | [], covs, alts, anyAlt => .ok (covs, alts, anyAlt)
  | q :: rest, covs, alts, anyAlt =>
    if q.2.is_secondary || q.2.is_supplementary || decide (q.2.mapq < 50) then
      profLoop region rest covs alts anyAlt
    else
      match update_profs q.2 covs alts region with
      | .error f => .error (.fault f)
      | .ok (covs2, alts2, b) =>
        if 200 ≤ q.1 then .error .highDepth
        else profLoop region rest covs2 alts2 (anyAlt + if b then 1 else 0)

/-- `get_profile` from `src/profile.rs`, with the fetched records supplied as a
list (the `bam.fetch` / record-parse I-O is external). -/
def get_profile (recs : List Record) (region : Region) : Except ProfErr (Prof × Bool) :=
  match profLoop region recs.enum
      (List.replicate (region.rEnd - region.rStart).toNat 0)
      (List.replicate (region.rEnd - region.rStart).toNat 0) 0 with
  | .error e => .error e
  | .ok (covs, alts, anyAlt) =>
    .ok ({ alts := alts.map fun v => (v : ℚ) / max (get_mean covs) 1,
           depth := get_mean covs }, decide (3 ≤ anyAlt))

/-- The `Locus` consumed by `src/extend.rs`.  Its definition lives in
`locus.rs`, outside the provided sources; modelled from the spec: a chromosome
name with a 0-based half-open interval (the Rust fields `chrom`, `start`,
`end`). -/
structure Locus where
  chrom : String
  start : ℤ
  stop : ℤ
deriving DecidableEq

/-- `extend_region` from `src/extend.rs`. -/
def extend_region (RADIUS : ℤ) (locus : Locus) : Except String Region :=
  if locus.start < RADIUS then .error "Locus too close to chromosome start"
  else .ok ⟨locus.chrom, locus.start - RADIUS, locus.stop + RADIUS⟩

/-- One element of `discretize` from `src/extend.rs` (the closure on lines
77-90): the six-level ordinal coding of an alteration fraction.  The source's
decimal literals `0.10, 0.25, 0.75, 1.50, 5.00` are written as rationals in
normalised form so kernel reduction can evaluate comparisons; the lemma
`discretize_literals` certifies each equals the corresponding decimal. -/
def discretize1 (v : ℚ) : ℕ :=
  if v ≤ Rat.mk' 1 10 then 0
  else if v < Rat.mk' 1 4 then 1
  else if v < Rat.mk' 3 4 then 2
  else if v < Rat.mk' 3 2 then 3
  else if v < 5 then 4
  else 5

/-- `discretize` from `src/extend.rs`. -/
def discretize (vals : List ℚ) : List ℕ :=
  vals.map discretize1

/-- The slice `&alts[p as usize..(p + w) as usize]` taken by both scan loops of
`extend_to_ref_flanks`. -/
def windowAt (alts : List ℕ) (p w : ℤ) : List ℕ :=
  (alts.drop p.toNat).take ((p + w).toNat - p.toNat)

/-- The left-flank acceptance test of `extend_to_ref_flanks`: the window is
reversed and the posterior compared against `0.5` (written `Rat.mk' 1 2`, the
normalised form of the source literal; see `discretize_literals`). -/
def acceptLeft (assess : List ℕ → ℚ) (alts : List ℕ) (w : ℤ) (p : ℤ) : Bool :=
  decide (Rat.mk' 1 2 ≤ assess (windowAt alts p w).reverse)

/-- The right-flank acceptance test of `extend_to_ref_flanks` (window in
forward order). -/
def acceptRight (assess : List ℕ → ℚ) (alts : List ℕ) (w : ℤ) (p : ℤ) : Bool :=
  decide (Rat.mk' 1 2 ≤ assess (windowAt alts p w))

/-- The left `while lf_pos >= 0` scan of `extend_to_ref_flanks`, with the
iteration count made explicit: started with fuel `(p + 1).toNat` it performs
exactly the iterations of the Rust loop (each iteration decrements both the
fuel and the position, and the loop runs at most `p + 1` times). -/
def leftScanAux (accept : ℤ → Bool) : ℕ → ℤ → ℤ
  | 0, p => p
  | fuel + 1, p =>
    if 0 ≤ p then (if accept p then p else leftScanAux accept fuel (p - 1)) else p

/-- Final `lf_pos` after the left scan loop starting at `p`. -/
def leftScan (accept : ℤ → Bool) (p : ℤ) : ℤ :=
  leftScanAux accept (p + 1).toNat p

/-- The right `while rf_pos <= alts.len() - window_len` scan of
`extend_to_ref_flanks`, with fuel `(limit + 1 - p).toNat` performing exactly
the iterations of the Rust loop. -/
def rightScanAux (accept : ℤ → Bool) (limit : ℤ) : ℕ → ℤ → ℤ
  | 0, p => p
  | fuel + 1, p =>
    if p ≤ limit then (if accept p then p else rightScanAux accept limit fuel (p + 1)) else p

/-- Final `rf_pos` after the right scan loop starting at `p`. -/
def rightScan (accept : ℤ → Bool) (limit : ℤ) (p : ℤ) : ℤ :=
  rightScanAux accept limit (limit + 1 - p).toNat p

/-- `extend_to_ref_flanks` from `src/extend.rs`, parameterised by the window
classifier `assess` (the role of `assess_window`, whose model tables live
outside the provided sources).  The `if lfPos = 0` test reproduces the
source's `if lf_pos == 0 { return None; }` verbatim. -/
def extend_to_ref_flanks (assess : List ℕ → ℚ) (alts : List ℕ) (span : ℤ × ℤ)
    (windowLen : ℤ) : Option (ℤ × ℤ) :=
  let lfPos := leftScan (acceptLeft assess alts windowLen) (span.1 - windowLen)
  if lfPos = 0 then none
  else
    let rfPos := rightScan (acceptRight assess alts windowLen)
      ((alts.length : ℤ) - windowLen) span.2
    if (alts.length : ℤ) - windowLen < rfPos then none
    else some (lfPos + windowLen, rfPos)

/-- The `for bam in bams` accumulation loop of `get_extension_offsets`
(`src/extend.rs` lines 22-39), with each sample's `get_profile` result
supplied as a list element.  Any failed sample aborts the whole locus
(the `.ok()?`). -/
def aggLoop : List (Except ProfErr (Prof × Bool)) → Option (List ℚ) → ℚ → ℕ → ℤ →
    Option (Option (List ℚ) × ℚ × ℕ × ℤ)
  | [], sumAlts, sumDepth, count, ns => some (sumAlts, sumDepth, count, ns)
  | r :: rest, sumAlts, sumDepth, count, ns =>
    match r with
    | .error _ => none
    | .ok (prof, anyAlt) =>
      aggLoop rest
        (match sumAlts with
         | some acc => some ((acc.zip prof.alts).map fun q => q.1 + q.2)
         | none => some prof.alts)
        (sumDepth + prof.depth) (count + 1)
        (ns + if anyAlt && decide (5 ≤ prof.depth) then 1 else 0)

/-- `get_extension_offsets` from `src/extend.rs`, parameterised by the
`RADIUS` constant and the window classifier (both defined in modules outside
the provided sources) and by the per-sample profile results. -/
def get_extension_offsets (RADIUS : ℤ) (assess : List ℕ → ℚ) (locus : Locus)
    (samples : List (Except ProfErr (Prof × Bool))) : Option (ℤ × ℤ × ℤ) :=
  match extend_region RADIUS locus with
  | .error _ => none
  | .ok _ =>
    match aggLoop samples none 0 0 0 with
    | none => none
    | some (sumAltsOpt, sumDepth, count, ns) =>
      match sumAltsOpt with
      | none => none
      | some sumAlts =>
        let depth := sumDepth / (count : ℚ)
        if depth < 5 ∨ depth > 150 then none
        else
          let alts := discretize (sumAlts.map fun s => s / (count : ℚ))
          match extend_to_ref_flanks assess alts
              (RADIUS, RADIUS + locus.stop - locus.start) 150 with
          | none => none
          | some span1 =>
            match extend_to_ref_flanks assess alts span1 50 with
            | none => none
            | some span2 =>
              match extend_to_ref_flanks assess alts span2 25 with
              | none => none
              | some span3 =>
                match extend_to_ref_flanks assess alts span3 10 with
                | none => none
                | some span4 =>
                  some (RADIUS - span4.1,
                        span4.2 - (RADIUS + locus.stop - locus.start), ns)

/-- The projection of `processOps` onto the strong-evidence flag: the running
`any_alt |= clipped_len >= 5` accumulation of `update_profs`, tracking only
the reference cursor and the flag. -/
def strongWalk (rS rE : ℤ) : List CigarOp → ℤ → Bool → Bool
  | [], _, b => b
  | op :: rest, p, b =>
    if p + get_ref_len op ≤ rS then strongWalk rS rE rest (p + get_ref_len op) b
    else if rE ≤ p then b
    else
      match op with
      | .Match _ | .Equal _ => strongWalk rS rE rest (p + get_ref_len op) b
      | .Diff _ | .Del _ =>
        strongWalk rS rE rest (p + get_ref_len op)
          (b || decide (5 ≤ min (p + get_ref_len op) rE - max p rS))
      | .Ins _ =>
        strongWalk rS rE rest p
          (b || decide (5 ≤ min (p + get_ref_len op) rE - max p rS))
      | .SoftClip _ => strongWalk rS rE rest p b
      | .HardClip _ | .Pad _ | .RefSkip _ => b

/-- A record carries strong alteration evidence: the flag `update_profs`
returns for it (at least one operation with region overlap `≥ 5` among the
mismatch/deletion/insertion arms). -/
def recStrong (region : Region) (rec : Record) : Bool :=
  strongWalk region.rStart region.rEnd rec.cigar rec.pos false

/-- A record is retained by `get_profile`'s filter and carries strong
evidence. -/
def keepStrong (region : Region) (r : Record) : Bool :=
  (!(r.is_secondary || r.is_supplementary || decide (r.mapq < 50))) && recStrong region r

/-- Modelled from the spec and claim C3's wording: the number of alignment
operations of a record that individually qualify as strong evidence
(`≥ 5`-position region overlap), walking the CIGAR with the same
skip/stop/advance discipline as `update_profs`.  This is the claim-side
counting notion used to test C3's "at least 3 of its operations" reading. -/
def strongOpsWalk (rS rE : ℤ) : List CigarOp → ℤ → ℕ
  | [], _ => 0
  | op :: rest, p =>
    if p + get_ref_len op ≤ rS then strongOpsWalk rS rE rest (p + get_ref_len op)
    else if rE ≤ p then 0
    else
      (match op with
       | .Diff _ | .Del _ | .Ins _ =>
         if 5 ≤ min (p + get_ref_len op) rE - max p rS then 1 else 0
       | _ => 0) +
      (match op with
       | .Ins _ | .SoftClip _ | .HardClip _ | .Pad _ => strongOpsWalk rS rE rest p
       | _ => strongOpsWalk rS rE rest (p + get_ref_len op))

/-- Claim-side count of strong operations of a record (see `strongOpsWalk`). -/
def strongOpCount (region : Region) (rec : Record) : ℕ :=
  strongOpsWalk region.rStart region.rEnd rec.cigar rec.pos

/-- The hard-clip/pad/reference-skip operation kinds, whose appearance in the
CIGAR walk triggers the `panic!("Unexpected operation ...")` arm. -/
def isBadOp : CigarOp → Bool
  | .HardClip _ | .Pad _ | .RefSkip _ => true
  | _ => false

/-! ## Supporting lemmas -/

/-- The normalised rationals used in `discretize1` and the acceptance tests
are the source's decimal literals. -/
theorem discretize_literals :
    (Rat.mk' 1 10 : ℚ) = 0.10 ∧ (Rat.mk' 1 4 : ℚ) = 0.25 ∧ (Rat.mk' 3 4 : ℚ) = 0.75 ∧
    (Rat.mk' 3 2 : ℚ) = 1.50 ∧ (5 : ℚ) = 5.00 ∧ (Rat.mk' 1 2 : ℚ) = 0.5 := by
  refine ⟨?_, ?_, ?_, ?_, ?_, ?_⟩ <;>
    first
      | (rw [Rat.mk'_eq_divInt, Rat.divInt_eq_div]; norm_num)
      | norm_num

theorem get_ref_len_nonneg (op : CigarOp) : 0 ≤ get_ref_len op := by
  cases op <;> simp [get_ref_len]

theorem length_incrSlice (l : List ℕ) (i n : ℕ) : (incrSlice l i n).length = l.length := by
  simp [incrSlice]

theorem length_addAt (l : List ℕ) (i k : ℕ) : (addAt l i k).length = l.length := by
  simp [addAt]

theorem leftScanAux_le (accept : ℤ → Bool) :
    ∀ (fuel : ℕ) (p : ℤ), leftScanAux accept fuel p ≤ p := by
  intro fuel
  induction fuel with
  | zero => intro p; simp [leftScanAux]
  | succ n ih =>
    intro p
    simp only [leftScanAux]
    split_ifs with h1 h2
    · exact le_refl p
    · have := ih (p - 1)
      omega
    · exact le_refl p

theorem leftScan_le (accept : ℤ → Bool) (p : ℤ) : leftScan accept p ≤ p :=
  leftScanAux_le accept _ p

theorem rightScanAux_ge (accept : ℤ → Bool) (limit : ℤ) :
    ∀ (fuel : ℕ) (p : ℤ), p ≤ rightScanAux accept limit fuel p := by
  intro fuel
  induction fuel with
  | zero => intro p; simp [rightScanAux]
  | succ n ih =>
    intro p
    simp only [rightScanAux]
    split_ifs with h1 h2
    · exact le_refl p
    · have := ih (p + 1)
      omega
    · exact le_refl p

theorem rightScan_ge (accept : ℤ → Bool) (limit p : ℤ) : p ≤ rightScan accept limit p :=
  rightScanAux_ge accept limit _ p

/-- Under the asserted length precondition, the CIGAR walk never reaches an
out-of-bounds vector access: every slice taken by the match/equal and
mismatch/deletion arms, and every single-index access of the insertion and
soft-clip arms, lies inside the vectors. -/
theorem processOps_no_oob (rS rE : ℤ) (ops : List CigarOp) :
    ∀ (st : ProfState), (st.covs.length : ℤ) = rE - rS → st.covs.length = st.alts.length →
      processOps rS rE ops st ≠ .error Fault.oob := by
  induction ops with
  | nil => intro st hc ha; simp [processOps]
  | cons op rest ih =>
    intro st hc ha
    cases op with
    | Match l =>
      simp only [processOps, get_ref_len]
      split_ifs with h1 h2 h3
      · exact ih _ hc ha
      · simp
      · exact ih _ (by simpa [length_incrSlice] using hc) (by simp [length_incrSlice, ha])
      · exact absurd (by constructor <;> omega) h3
    | Equal l =>
      simp only [processOps, get_ref_len]
      split_ifs with h1 h2 h3
      · exact ih _ hc ha
      · simp
      · exact ih _ (by simpa [length_incrSlice] using hc) (by simp [length_incrSlice, ha])
      · exact absurd (by constructor <;> omega) h3
    | Diff l =>
      simp only [processOps, get_ref_len]
      split_ifs with h1 h2 h3
      · exact ih _ hc ha
      · simp
      · exact ih _ (by simpa [length_incrSlice] using hc)
          (by simp [length_incrSlice, ha])
      · refine absurd ?_ h3
        refine ⟨by omega, by omega, by omega, by omega⟩
    | Del l =>
      simp only [processOps, get_ref_len]
      split_ifs with h1 h2 h3
      · exact ih _ hc ha
      · simp
      · exact ih _ (by simpa [length_incrSlice] using hc)
          (by simp [length_incrSlice, ha])
      · refine absurd ?_ h3
        refine ⟨by omega, by omega, by omega, by omega⟩
    | Ins l =>
      simp only [processOps, get_ref_len]
      split_ifs with h1 h2 h3 h4
      · exact ih _ hc ha
      · simp
      · exact ih _ (by simpa using hc) (by simp [length_addAt, ha])
      · exact absurd (by omega) h4
      · exact ih _ hc ha
    | SoftClip l =>
      simp only [processOps, get_ref_len]
      split_ifs with h1 h2 h3 h4
      · exact ih _ hc ha
      · simp
      · exact ih _ (by simpa using hc) (by simp [length_addAt, ha])
      · exact absurd (by omega) h4
      · exact ih _ hc ha
    | HardClip l =>
      simp only [processOps, get_ref_len]
      split_ifs with h1 h2
      · exact ih _ hc ha
      · simp
      · simp
    | Pad l =>
      simp only [processOps, get_ref_len]
      split_ifs with h1 h2
      · exact ih _ hc ha
      · simp
      · simp
    | RefSkip l =>
      simp only [processOps, get_ref_len]
      split_ifs with h1 h2
      · exact ih _ hc ha
      · simp
      · simp

/-- When the CIGAR walk completes without a panic, its strong-evidence flag is
the `strongWalk` projection of the operation list. -/
theorem processOps_anyAlt (rS rE : ℤ) (ops : List CigarOp) :
    ∀ (st st' : ProfState), processOps rS rE ops st = .ok st' →
      st'.anyAlt = strongWalk rS rE ops st.refPos st.anyAlt := by
  induction ops with
  | nil =>
    intro st st' h
    simp only [processOps, Except.ok.injEq] at h
    subst h
    simp [strongWalk]
  | cons op rest ih =>
    intro st st' h
    cases op <;>
      (simp only [processOps, get_ref_len, add_zero] at h
       simp only [strongWalk, get_ref_len, add_zero]
       split_ifs at h ⊢ <;>
         first
           | (have h5 := ih _ _ h; exact h5)
           | (simp only [Except.ok.injEq] at h; subst h; rfl))

/-- The per-record flag returned by `update_profs` is `recStrong`. -/
theorem update_profs_anyAlt (rec : Record) (covs alts : List ℕ) (region : Region)
    (c a : List ℕ) (b : Bool)
    (h : update_profs rec covs alts region = .ok (c, a, b)) :
    b = recStrong region rec := by
  unfold update_profs at h
  split_ifs at h with hassert
  · cases hp : processOps region.rStart region.rEnd rec.cigar
        { refPos := rec.pos, covs := covs, alts := alts, anyAlt := false } with
    | ok st =>
      rw [hp] at h
      simp only [Except.ok.injEq, Prod.mk.injEq] at h
      have := processOps_anyAlt region.rStart region.rEnd rec.cigar _ _ hp
      unfold recStrong
      rw [← h.2.2, this]
    | error f =>
      rw [hp] at h
      simp at h

/-- When the record loop completes, its counter equals the starting value plus
the number of retained strong-evidence records in the remaining list. -/
theorem profLoop_count (region : Region) (pairs : List (ℕ × Record)) :
    ∀ (covs alts : List ℕ) (a : ℕ) (c al : List ℕ) (n : ℕ),
      profLoop region pairs covs alts a = .ok (c, al, n) →
      n = a + (pairs.filter fun q => keepStrong region q.2).length := by
  induction pairs with
  | nil =>
    intro covs alts a c al n h
    simp only [profLoop, Except.ok.injEq, Prod.mk.injEq] at h
    simp [← h.2.2]
  | cons q rest ih =>
    intro covs alts a c al n h
    simp only [profLoop] at h
    by_cases hskip : (q.2.is_secondary || q.2.is_supplementary || decide (q.2.mapq < 50)) = true
    · rw [if_pos hskip] at h
      have hq : keepStrong region q.2 = false := by
        simp [keepStrong, hskip]
      simp only [List.filter_cons, hq]
      exact ih _ _ _ _ _ _ h
    · rw [if_neg hskip] at h
      cases hup : update_profs q.2 covs alts region with
      | error f => rw [hup] at h; simp at h
      | ok t =>
        obtain ⟨covs2, alts2, b⟩ := t
        rw [hup] at h
        simp only at h
        by_cases hidx : 200 ≤ q.1
        · rw [if_pos hidx] at h; simp at h
        · rw [if_neg hidx] at h
          have hb := update_profs_anyAlt q.2 covs alts region covs2 alts2 b hup
          have hskip2 : (q.2.is_secondary || q.2.is_supplementary || decide (q.2.mapq < 50))
              = false := by simpa using hskip
          have hq : keepStrong region q.2 = b := by
            simp [keepStrong, hskip2, ← hb]
          have hrest := ih _ _ _ _ _ _ h
          simp only [List.filter_cons, hq]
          cases b <;> simp at hrest ⊢ <;> omega

/-- If the record loop completes without error, every retained record sat at a
fetch index `< 200` (the depth ceiling fires on any later retained record). -/
theorem profLoop_ok_idx (region : Region) (pairs : List (ℕ × Record)) :
    ∀ (covs alts : List ℕ) (a : ℕ) (x : List ℕ × List ℕ × ℕ),
      profLoop region pairs covs alts a = .ok x →
      ∀ q ∈ pairs,
        (!(q.2.is_secondary || q.2.is_supplementary || decide (q.2.mapq < 50))) = true →
        q.1 < 200 := by
  induction pairs with
  | nil => intro covs alts a x h q hq; simp at hq
  | cons p rest ih =>
    intro covs alts a x h q hq hret
    simp only [profLoop] at h
    rcases List.mem_cons.mp hq with rfl | hq2
    · by_cases hskip : (q.2.is_secondary || q.2.is_supplementary || decide (q.2.mapq < 50)) = true
      · simp [hskip] at hret
      · rw [if_neg hskip] at h
        cases hup : update_profs q.2 covs alts region with
        | error f => rw [hup] at h; simp at h
        | ok t =>
          obtain ⟨covs2, alts2, b⟩ := t
          rw [hup] at h
          simp only at h
          by_cases hidx : 200 ≤ q.1
          · rw [if_pos hidx] at h; simp at h
          · omega
    · by_cases hskip : (p.2.is_secondary || p.2.is_supplementary || decide (p.2.mapq < 50)) = true
      · rw [if_pos hskip] at h
        exact ih _ _ _ _ h q hq2 hret
      · rw [if_neg hskip] at h
        cases hup : update_profs p.2 covs alts region with
        | error f => rw [hup] at h; simp at h
        | ok t =>
          obtain ⟨covs2, alts2, b⟩ := t
          rw [hup] at h
          simp only at h
          by_cases hidx : 200 ≤ p.1
          · rw [if_pos hidx] at h; simp at h
          · rw [if_neg hidx] at h
            exact ih _ _ _ _ h q hq2 hret

/-- If every record in the list sits at a fetch index `< 200`, the loop never
produces the "High depth" error. -/
theorem profLoop_no_highDepth (region : Region) (pairs : List (ℕ × Record)) :
    ∀ (covs alts : List ℕ) (a : ℕ), (∀ q ∈ pairs, q.1 < 200) →
      profLoop region pairs covs alts a ≠ .error ProfErr.highDepth := by
  induction pairs with
  | nil => intro covs alts a hlt; simp [profLoop]
  | cons p rest ih =>
    intro covs alts a hlt
    simp only [profLoop]
    by_cases hskip : (p.2.is_secondary || p.2.is_supplementary || decide (p.2.mapq < 50)) = true
    · rw [if_pos hskip]
      exact ih _ _ _ fun q hq => hlt q (List.mem_cons_of_mem p hq)
    · rw [if_neg hskip]
      cases hup : update_profs p.2 covs alts region with
      | error f => simp
      | ok t =>
        obtain ⟨covs2, alts2, b⟩ := t
        simp only
        have hp := hlt p (List.mem_cons_self p rest)
        rw [if_neg (by omega)]
        exact ih _ _ _ fun q hq => hlt q (List.mem_cons_of_mem p hq)

/-- Index bound for enumerated lists. -/
theorem enumFrom_fst_lt {α : Type} (l : List α) :
    ∀ (n : ℕ) (q : ℕ × α), q ∈ List.enumFrom n l → q.1 < n + l.length := by
  induction l with
  | nil => intro n q hq; simp [List.enumFrom] at hq
  | cons x t ih =>
    intro n q hq
    simp only [List.enumFrom, List.mem_cons] at hq
    rcases hq with rfl | hq
    · simp
    · have := ih (n + 1) q hq
      simp [List.length_cons]
      omega

/-- Filtering an enumerated list on the element component matches filtering the
underlying list. -/
theorem enumFrom_filter_length {α : Type} (p : α → Bool) (l : List α) :
    ∀ n, ((List.enumFrom n l).filter fun q => p q.2).length = (l.filter p).length := by
  induction l with
  | nil => intro n; rfl
  | cons x t ih =>
    intro n
    simp only [List.enumFrom, List.filter_cons]
    cases hpx : p x <;> simp [hpx, ih]

/-- When every sample's profile build succeeds, the aggregation loop completes
and accumulates the sum of the per-sample mean depths and the sample count. -/
theorem aggLoop_map_ok (samples : List (Prof × Bool)) :
    ∀ (sa : Option (List ℚ)) (d : ℚ) (c : ℕ) (n : ℤ),
      ∃ saOut nsOut,
        aggLoop (samples.map Except.ok) sa d c n =
          some (saOut, d + (samples.map fun s => s.1.depth).sum, c + samples.length, nsOut) := by
  induction samples with
  | nil =>
    intro sa d c n
    exact ⟨sa, n, by simp [aggLoop]⟩
  | cons s rest ih =>
    obtain ⟨prof, ab⟩ := s
    intro sa d c n
    obtain ⟨saOut, nsOut, hrec⟩ := ih
      (match sa with
       | some acc => some ((acc.zip prof.alts).map fun q => q.1 + q.2)
       | none => some prof.alts)
      (d + prof.depth) (c + 1) (n + if ab && decide (5 ≤ prof.depth) then 1 else 0)
    refine ⟨saOut, nsOut, ?_⟩
    simp only [List.map_cons, aggLoop]
    rw [hrec]
    have h1 : d + prof.depth + (rest.map fun s => s.1.depth).sum
        = d + ((⟨prof, ab⟩ :: rest : List (Prof × Bool)).map fun s => s.1.depth).sum := by
      simp [add_assoc]
    have h2 : c + 1 + rest.length = c + (⟨prof, ab⟩ :: rest : List (Prof × Bool)).length := by
      simp
      omega
    rw [h1, h2]
    simp

/-- The five discretization thresholds are strictly increasing. -/
theorem thresholds_sorted :
    (Rat.mk' 1 10 : ℚ) < Rat.mk' 1 4 ∧ (Rat.mk' 1 4 : ℚ) < Rat.mk' 3 4 ∧
    (Rat.mk' 3 4 : ℚ) < Rat.mk' 3 2 ∧ (Rat.mk' 3 2 : ℚ) < 5 := by
  decide

theorem discretize1_le_five (v : ℚ) : discretize1 v ≤ 5 := by
  unfold discretize1
  split_ifs <;> omega

theorem discretize1_mono (v w : ℚ) (hvw : v ≤ w) : discretize1 v ≤ discretize1 w := by
  obtain ⟨t1, t2, t3, t4⟩ := thresholds_sorted
  unfold discretize1
  split_ifs <;> first | omega | linarith

theorem discretize1_eq_zero (v : ℚ) : discretize1 v = 0 ↔ v ≤ Rat.mk' 1 10 := by
  obtain ⟨t1, t2, t3, t4⟩ := thresholds_sorted
  unfold discretize1
  split_ifs <;> simp <;> linarith

theorem discretize1_eq_one (v : ℚ) :
    discretize1 v = 1 ↔ Rat.mk' 1 10 < v ∧ v < Rat.mk' 1 4 := by
  obtain ⟨t1, t2, t3, t4⟩ := thresholds_sorted
  unfold discretize1
  split_ifs <;> simp <;>
    first
      | (constructor <;> linarith)
      | (intro hc1 hc2; linarith)
      | (intro hc1; linarith)
      | linarith

theorem discretize1_eq_two (v : ℚ) :
    discretize1 v = 2 ↔ Rat.mk' 1 4 ≤ v ∧ v < Rat.mk' 3 4 := by
  obtain ⟨t1, t2, t3, t4⟩ := thresholds_sorted
  unfold discretize1
  split_ifs <;> simp <;>
    first
      | (constructor <;> linarith)
      | (intro hc1 hc2; linarith)
      | (intro hc1; linarith)
      | linarith

theorem discretize1_eq_three (v : ℚ) :
    discretize1 v = 3 ↔ Rat.mk' 3 4 ≤ v ∧ v < Rat.mk' 3 2 := by
  obtain ⟨t1, t2, t3, t4⟩ := thresholds_sorted
  unfold discretize1
  split_ifs <;> simp <;>
    first
      | (constructor <;> linarith)
      | (intro hc1 hc2; linarith)
      | (intro hc1; linarith)
      | linarith

theorem discretize1_eq_four (v : ℚ) :
    discretize1 v = 4 ↔ Rat.mk' 3 2 ≤ v ∧ v < 5 := by
  obtain ⟨t1, t2, t3, t4⟩ := thresholds_sorted
  unfold discretize1
  split_ifs <;> simp <;>
    first
      | (constructor <;> linarith)
      | (intro hc1 hc2; linarith)
      | (intro hc1; linarith)
      | linarith

theorem discretize1_eq_five (v : ℚ) : discretize1 v = 5 ↔ 5 ≤ v := by
  obtain ⟨t1, t2, t3, t4⟩ := thresholds_sorted
  unfold discretize1
  split_ifs <;> simp <;> linarith

/-! ## Claim theorems -/

/-- Claim C1: contrary to the claim, a left-flank scan that decrements down to
position 0 with every window rejected (posterior `< 0.5`) does NOT make
`extend_to_ref_flanks` return `none`.  Here the scan starts at position 1,
rejects positions 1 and 0, exits the loop with `lf_pos = -1`, escapes the
`if lf_pos == 0` check, and the function fabricates the span `(0, 3)` whose
left boundary was never accepted.  (The `== 0` check instead fires when a
window at position 0 IS accepted.) -/
theorem c1_left_runoff_returns_some :
    extend_to_ref_flanks (fun w => if w = [1] then 1 else 0) [0, 0, 0, 1] (2, 3) 1
      = some (0, 3) ∧
    acceptLeft (fun w => if w = [1] then 1 else 0) [0, 0, 0, 1] 1 1 = false ∧
    acceptLeft (fun w => if w = [1] then 1 else 0) [0, 0, 0, 1] 1 0 = false := by
  decide

/-- Claim C2: whenever `extend_to_ref_flanks` returns a new span, its left
index is `≤` the input span's left index and its right index is `≥` the input
span's right index; in particular, applied successively with the four window
lengths 150, 50, 25, 10 in `get_extension_offsets`, the span never shrinks. -/
theorem c2_span_monotone (assess : List ℕ → ℚ) (alts : List ℕ) (span : ℤ × ℤ)
    (windowLen : ℤ) (s2 : ℤ × ℤ)
    (h : extend_to_ref_flanks assess alts span windowLen = some s2) :
    s2.1 ≤ span.1 ∧ span.2 ≤ s2.2 := by
  have hl := leftScan_le (acceptLeft assess alts windowLen) (span.1 - windowLen)
  have hr := rightScan_ge (acceptRight assess alts windowLen)
    ((alts.length : ℤ) - windowLen) span.2
  unfold extend_to_ref_flanks at h
  simp only at h
  split_ifs at h with h1 h2
  simp only [Option.some.injEq] at h
  subst h
  constructor
  · simp only
    omega
  · simpa using hr

/-- Witness for C2 at a concrete accepting signal. -/
theorem c2_span_monotone_witness : (2 : ℤ) ≤ 2 ∧ (2 : ℤ) ≤ 2 :=
  c2_span_monotone (fun _ => 1) [0, 0, 0, 0] (2, 2) 1 (2, 2) (by decide)

/-- Claim C4 (amended): an insertion of length `L` anchored at a position `p`
strictly inside the region (`region.start < p < region.end`; an insertion
anchored exactly at `region.start` is skipped by the leading
"entirely before the region" test) adds exactly `L` to the alteration count at
`p`, leaves every other alteration count and every coverage count unchanged,
consumes no reference positions (the cursor stays at `p`), and marks the
operation as strong evidence exactly when its region-overlap length — which is
always 0 for an insertion — reaches `≥ 5` (so never). -/
theorem c4_insertion_amended (L : ℕ) (p : ℤ) (mq : ℕ) (sec supp : Bool)
    (covs alts : List ℕ) (region : Region) (a : Bool)
    (h1 : region.rStart < p) (h2 : p < region.rEnd)
    (hc : (covs.length : ℤ) = region.rEnd - region.rStart)
    (ha : covs.length = alts.length) :
    update_profs ⟨p, mq, sec, supp, [CigarOp.Ins L]⟩ covs alts region =
        .ok (covs, addAt alts (p - region.rStart).toNat L, false) ∧
    processOps region.rStart region.rEnd [CigarOp.Ins L] ⟨p, covs, alts, a⟩ =
        .ok ⟨p, covs, addAt alts (p - region.rStart).toNat L, a⟩ ∧
    min (p + get_ref_len (CigarOp.Ins L)) region.rEnd - max p region.rStart = 0 := by
  have hover : min (p + get_ref_len (CigarOp.Ins L)) region.rEnd - max p region.rStart
      = 0 := by
    simp only [get_ref_len]
    omega
  have hidx : (p - region.rStart).toNat < alts.length := by omega
  have hproc : ∀ b : Bool,
      processOps region.rStart region.rEnd [CigarOp.Ins L] ⟨p, covs, alts, b⟩ =
        .ok ⟨p, covs, addAt alts (p - region.rStart).toNat L, b⟩ := by
    intro b
    simp only [processOps, get_ref_len]
    rw [if_neg (by omega), if_neg (by omega), if_pos ⟨by omega, h2⟩, if_pos hidx]
    have h0 : min (p + (0 : ℤ)) region.rEnd - max p region.rStart = 0 := by omega
    simp only [h0]
    simp [processOps]
  refine ⟨?_, hproc a, hover⟩
  unfold update_profs
  rw [if_pos ⟨hc, ha⟩]
  simp only [hproc false]

/-- Witness for C4 (amended) at a concrete insertion strictly inside the
region. -/
theorem c4_insertion_witness :
    update_profs ⟨3, 60, false, false, [CigarOp.Ins 8]⟩ (List.replicate 10 0)
        (List.replicate 10 0) ⟨"c", 0, 10⟩ =
      .ok (List.replicate 10 0, addAt (List.replicate 10 0) 3 8, false) :=
  (c4_insertion_amended 8 3 60 false false (List.replicate 10 0) (List.replicate 10 0)
    ⟨"c", 0, 10⟩ false (by decide) (by decide) (by decide) (by decide)).1

/-- Counterexample to C4 as stated: an insertion of length 8 anchored at
`p = region.start` (a position inside the half-open region) is skipped
entirely — the alteration count at `p` stays 0 instead of gaining 8, because
`ref_pos + op_len <= region_start` holds for the zero-reference-length
insertion. -/
theorem c4_counterexample :
    update_profs ⟨0, 60, false, false, [CigarOp.Ins 8]⟩ (List.replicate 10 0)
        (List.replicate 10 0) ⟨"c", 0, 10⟩ =
      .ok (List.replicate 10 0, List.replicate 10 0, false) ∧
    addAt (List.replicate 10 0) 0 8 ≠ List.replicate 10 0 := by
  decide

/-- Claim C8 (amended): a hard-clip, pad, or reference-skip operation triggers
the fatal `panic!` exactly when the CIGAR walk reaches it with region overlap:
if it lies entirely at or before the region start it is silently skipped, and
if the cursor is already at or past the region end the walk stops without
looking at it; otherwise processing aborts. -/
theorem c8_bad_op_amended (op : CigarOp) (hbad : isBadOp op = true) (p : ℤ) (mq : ℕ)
    (sec supp : Bool) (covs alts : List ℕ) (region : Region)
    (hc : (covs.length : ℤ) = region.rEnd - region.rStart)
    (ha : covs.length = alts.length) :
    update_profs ⟨p, mq, sec, supp, [op]⟩ covs alts region =
      if p + get_ref_len op ≤ region.rStart then .ok (covs, alts, false)
      else if region.rEnd ≤ p then .ok (covs, alts, false)
      else .error Fault.badOp := by
  unfold update_profs
  rw [if_pos ⟨hc, ha⟩]
  cases op with
  | HardClip l =>
    simp only [processOps, get_ref_len]
    split_ifs <;> rfl
  | Pad l =>
    simp only [processOps, get_ref_len]
    split_ifs <;> rfl
  | RefSkip l =>
    simp only [processOps, get_ref_len]
    split_ifs <;> rfl
  | Match l => simp [isBadOp] at hbad
  | Equal l => simp [isBadOp] at hbad
  | Diff l => simp [isBadOp] at hbad
  | Del l => simp [isBadOp] at hbad
  | Ins l => simp [isBadOp] at hbad
  | SoftClip l => simp [isBadOp] at hbad

/-- Witness for C8 (amended): a reference-skip overlapping the region panics. -/
theorem c8_bad_op_witness :
    update_profs ⟨0, 60, false, false, [CigarOp.RefSkip 5]⟩ (List.replicate 10 0)
        (List.replicate 10 0) ⟨"c", 0, 10⟩ = Except.error Fault.badOp := by
  rw [c8_bad_op_amended (CigarOp.RefSkip 5) (by decide) 0 60 false false
      (List.replicate 10 0) (List.replicate 10 0) ⟨"c", 0, 10⟩ (by decide) (by decide)]
  decide

/-- Counterexample to C8 as stated: a record containing a hard-clip that lies
at/before the region start is processed to completion with no panic — the
operation is silently skipped. -/
theorem c8_counterexample :
    update_profs ⟨3, 60, false, false, [CigarOp.HardClip 3]⟩ (List.replicate 5 0)
        (List.replicate 5 0) ⟨"c", 5, 10⟩ =
      .ok (List.replicate 5 0, List.replicate 5 0, false) := by
  decide

/-- Claim C9: under the asserted precondition (both vectors have length
`region.end - region.start`), `update_profs` never panics from out-of-bounds
indexing: every slice access of the match/equal and mismatch/deletion arms
(and every single-index access of the insertion/soft-clip arms) is in
bounds. -/
theorem c9_no_oob (rec : Record) (covs alts : List ℕ) (region : Region)
    (hc : (covs.length : ℤ) = region.rEnd - region.rStart)
    (ha : covs.length = alts.length) :
    update_profs rec covs alts region ≠ .error Fault.oob := by
  unfold update_profs
  rw [if_pos ⟨hc, ha⟩]
  cases hp : processOps region.rStart region.rEnd rec.cigar
      { refPos := rec.pos, covs := covs, alts := alts, anyAlt := false } with
  | ok st => simp
  | error f =>
    have h2 := processOps_no_oob region.rStart region.rEnd rec.cigar
      { refPos := rec.pos, covs := covs, alts := alts, anyAlt := false } hc ha
    rw [hp] at h2
    simpa using h2

/-- Witness for C9 at a concrete record and region. -/
theorem c9_no_oob_witness :
    update_profs ⟨0, 60, false, false, [CigarOp.Match 5]⟩ (List.replicate 10 0)
        (List.replicate 10 0) ⟨"c", 0, 10⟩ ≠ Except.error Fault.oob :=
  c9_no_oob ⟨0, 60, false, false, [CigarOp.Match 5]⟩ (List.replicate 10 0)
    (List.replicate 10 0) ⟨"c", 0, 10⟩ (by decide) (by decide)

/-- Claim C10: with no alignment-file handles (samples), the accumulator is
never seeded (`sum_alts` stays `None`), so `get_extension_offsets` returns
`none` for every locus — including loci whose padded region can be
constructed. -/
theorem c10_empty_bams_none (RADIUS : ℤ) (assess : List ℕ → ℚ) (locus : Locus) :
    get_extension_offsets RADIUS assess locus [] = none := by
  unfold get_extension_offsets
  cases h : extend_region RADIUS locus with
  | error e => rfl
  | ok r => rfl

/-- Claim C3 (amended): the sample-level flag returned by `get_profile` is
true exactly when at least 3 retained records are strong-evidence records,
where a record already qualifies as strong-evidence when at least ONE of its
operations qualified as strong (`≥ 5`-position region overlap) — not three as
the claim states. -/
theorem c3_any_alt_amended (recs : List Record) (region : Region) (prof : Prof)
    (b : Bool) (h : get_profile recs region = .ok (prof, b)) :
    b = true ↔ 3 ≤ (recs.filter (keepStrong region)).length := by
  unfold get_profile at h
  cases hpl : profLoop region recs.enum
      (List.replicate (region.rEnd - region.rStart).toNat 0)
      (List.replicate (region.rEnd - region.rStart).toNat 0) 0 with
  | error e => rw [hpl] at h; simp at h
  | ok t =>
    obtain ⟨covs, alts, anyAlt⟩ := t
    rw [hpl] at h
    simp only [Except.ok.injEq, Prod.mk.injEq] at h
    have hcount := profLoop_count region recs.enum _ _ _ _ _ _ hpl
    have henum := enumFrom_filter_length (keepStrong region) recs 0
    rw [← h.2]
    simp only [decide_eq_true_eq]
    rw [hcount]
    simp only [List.enum] at *
    rw [henum]
    omega

/-- Witness for C3 (amended) at the empty record list. -/
theorem c3_any_alt_witness :
    (false = true ↔ 3 ≤ (([] : List Record).filter (keepStrong ⟨"c", 0, 1⟩)).length) :=
  c3_any_alt_amended [] ⟨"c", 0, 1⟩ _ false rfl

/-- Counterexample to C3 as stated: three retained records, each carrying a
single strong operation (one 5-long deletion inside the region, so fewer than
the claimed 3 strong operations per record), already make the sample-level
flag true; no record meets the claim's "at least 3 strong operations"
requirement, yet `any_alt` is `true` rather than the claimed `false`. -/
theorem c3_counterexample :
    (get_profile (List.replicate 3 ⟨0, 60, false, false, [CigarOp.Del 5]⟩)
        ⟨"c", 0, 10⟩).map Prod.snd = .ok true ∧
    ((List.replicate 3 (⟨0, 60, false, false, [CigarOp.Del 5]⟩ : Record)).filter
        fun r => decide (3 ≤ strongOpCount ⟨"c", 0, 10⟩ r)).length = 0 := by
  decide

/-- Claim C5 (amended): the "High depth" error never fires when at most 200
records are fetched; and whenever some record at 0-based fetch index `≥ 200`
is retained (passes the secondary/supplementary/mapq filter), `get_profile`
cannot succeed (it aborts — with the "High depth" error, unless an earlier
record's panic pre-empts it).  Fetching more than 200 records is NOT by
itself enough: filtered-out records skip the depth check (see
`c5_counterexample`). -/
theorem c5_high_depth_amended :
    (∀ (recs : List Record) (region : Region), recs.length ≤ 200 →
        get_profile recs region ≠ .error ProfErr.highDepth) ∧
    (∀ (recs : List Record) (region : Region) (q : ℕ × Record), q ∈ recs.enum →
        200 ≤ q.1 →
        (!(q.2.is_secondary || q.2.is_supplementary || decide (q.2.mapq < 50))) = true →
        ∀ pb : Prof × Bool, get_profile recs region ≠ .ok pb) := by
  constructor
  · intro recs region hlen hcon
    unfold get_profile at hcon
    cases hpl : profLoop region recs.enum
        (List.replicate (region.rEnd - region.rStart).toNat 0)
        (List.replicate (region.rEnd - region.rStart).toNat 0) 0 with
    | error e =>
      rw [hpl] at hcon
      simp only [Except.error.injEq] at hcon
      have hidxs : ∀ q ∈ recs.enum, q.1 < 200 := by
        intro q hq
        have := enumFrom_fst_lt recs 0 q (by simpa [List.enum] using hq)
        omega
      have hnohigh := profLoop_no_highDepth region recs.enum
        (List.replicate (region.rEnd - region.rStart).toNat 0)
        (List.replicate (region.rEnd - region.rStart).toNat 0) 0 hidxs
      rw [hpl] at hnohigh
      subst hcon
      exact hnohigh rfl
    | ok t =>
      obtain ⟨c, al, n⟩ := t
      rw [hpl] at hcon
      simp at hcon
  · intro recs region q hq hidx hret pb hcon
    unfold get_profile at hcon
    cases hpl : profLoop region recs.enum
        (List.replicate (region.rEnd - region.rStart).toNat 0)
        (List.replicate (region.rEnd - region.rStart).toNat 0) 0 with
    | error e => rw [hpl] at hcon; simp at hcon
    | ok t =>
      have := profLoop_ok_idx region recs.enum _ _ _ _ hpl q hq hret
      omega

/-- Witness for C5 (amended): with no fetched records the "High depth" error
cannot occur. -/
theorem c5_high_depth_witness :
    get_profile [] ⟨"c", 0, 1⟩ ≠ Except.error ProfErr.highDepth :=
  c5_high_depth_amended.1 [] ⟨"c", 0, 1⟩ (by decide)

/-- Counterexample to C5 as stated: 201 records are fetched (more than 200),
but every one of them is secondary, so the filter `continue`s past the depth
check and `get_profile` succeeds instead of failing with "High depth". -/
theorem c5_counterexample :
    (get_profile (List.replicate 201 ⟨0, 60, true, false, []⟩) ⟨"c", 0, 1⟩).map Prod.snd
      = .ok false := by
  decide

/-- Claim C6 (amended): `discretize` is total and monotone non-decreasing —
every alteration fraction maps elementwise to exactly one code in {0..5} per
the thresholds `v ≤ 0.10 → 0; < 0.25 → 1; < 0.75 → 2; < 1.50 → 3; < 5.00 → 4;
else 5`.  The boundary `0.10` (tested with `≤`) maps to the lower adjacent
bin, but each strict boundary `0.25`, `0.75`, `1.50`, `5.00` maps to the UPPER
adjacent bin (codes 2, 3, 4, 5), contrary to the claim. -/
theorem c6_discretize_amended (v w : ℚ) (hvw : v ≤ w) :
    discretize1 v ≤ discretize1 w ∧
    discretize1 v ≤ 5 ∧
    discretize [v] = [discretize1 v] ∧
    (discretize1 v = 0 ↔ v ≤ 0.10) ∧
    (discretize1 v = 1 ↔ 0.10 < v ∧ v < 0.25) ∧
    (discretize1 v = 2 ↔ 0.25 ≤ v ∧ v < 0.75) ∧
    (discretize1 v = 3 ↔ 0.75 ≤ v ∧ v < 1.50) ∧
    (discretize1 v = 4 ↔ 1.50 ≤ v ∧ v < 5.00) ∧
    (discretize1 v = 5 ↔ 5.00 ≤ v) ∧
    discretize1 0.10 = 0 ∧ discretize1 0.25 = 2 ∧ discretize1 0.75 = 3 ∧
    discretize1 1.50 = 4 ∧ discretize1 5.00 = 5 := by
  obtain ⟨e1, e2, e3, e4, e5, e6⟩ := discretize_literals
  rw [← e1, ← e2, ← e3, ← e4, ← e5]
  exact ⟨discretize1_mono v w hvw, discretize1_le_five v, rfl,
    discretize1_eq_zero v, discretize1_eq_one v, discretize1_eq_two v,
    discretize1_eq_three v, discretize1_eq_four v, discretize1_eq_five v,
    by decide, by decide, by decide, by decide, by decide⟩

/-- Witness for C6 (amended) at a concrete monotone pair. -/
theorem c6_discretize_witness : discretize1 0 ≤ discretize1 1 :=
  (c6_discretize_amended 0 1 (by decide)).1

/-- Counterexample to C6 as stated: the exact boundary value `0.25` maps to
bin 2, the upper adjacent bin, not the lower adjacent bin 1. -/
theorem c6_counterexample : discretize1 0.25 = 2 ∧ (2 : ℕ) ≠ 1 := by
  refine ⟨?_, by decide⟩
  rw [← discretize_literals.2.1]
  decide

/-- Claim C7: whenever every per-sample profile build succeeds and the
consensus depth — the mean of the per-sample mean depths — is `< 5` or
`> 150`, `get_extension_offsets` returns `none`, regardless of the shape of
the alteration signal. -/
theorem c7_depth_band_none (RADIUS : ℤ) (assess : List ℕ → ℚ) (locus : Locus)
    (samples : List (Prof × Bool)) (hne : samples ≠ [])
    (hband : (samples.map fun s => s.1.depth).sum / (samples.length : ℚ) < 5 ∨
             150 < (samples.map fun s => s.1.depth).sum / (samples.length : ℚ)) :
    get_extension_offsets RADIUS assess locus (samples.map Except.ok) = none := by
  unfold get_extension_offsets
  cases hr : extend_region RADIUS locus with
  | error e => rfl
  | ok r =>
    obtain ⟨saOut, nsOut, hagg⟩ := aggLoop_map_ok samples none 0 0 0
    rw [hagg]
    simp only [zero_add]
    cases saOut with
    | none => rfl
    | some sumAlts =>
      simp only
      rw [if_pos hband]

/-- Witness for C7 at one sample with mean depth 3 (below the band). -/
theorem c7_depth_band_witness :
    get_extension_offsets 10 (fun _ => 0) ⟨"c", 20, 25⟩
      [Except.ok (⟨[], 3⟩, false)] = none :=
  c7_depth_band_none 10 (fun _ => 0) ⟨"c", 20, 25⟩ [(⟨[], 3⟩, false)]
    (by simp) (Or.inl (by norm_num))

end VClust
